import Mathlib

/-!
Verification of PassportEye's MRZ parsing, OCR cleaning and pipeline utilities.

The definitions below are a shallow embedding of the Python sources:
  * `src/passporteye/mrz/text.py`     (`MRZ`, `MRZOCRCleaner`, `MRZCheckDigit`)
  * `src/passporteye/mrz/image.py`    (`MRZBoxLocator`, `FindFirstValidMRZ`)
  * `src/passporteye/util/pipeline.py` (`Pipeline`)
  * `src/passporteye/util/ocr.py`     (`ocr`)

Python strings are modelled as `List Char`; Python slicing `s[i:j]` is
`(take j).drop i`, single-character indexing `s[i]` is `getD` at call sites that
the source guarantees to be in range (after right-padding with fillers).
Python exceptions are modelled with `Option`/fall-through branches exactly where
the source can raise inside a `try`.
-/

namespace PassportEye

/-! ### `MRZCheckDigit` (text.py, lines 467-515) -/

/-- Lookup in `MRZCheckDigit.CHECK_CODES` with the dict-`get` default: digits
map to their own value, `A`-`Z` map to `10`-`35`, the filler `<` maps to `0`,
and every other character yields the default `-1000`. -/
def checkCode (c : Char) : Int :=
  if 48 ≤ c.toNat ∧ c.toNat ≤ 57 then (c.toNat : Int) - 48
  else if 65 ≤ c.toNat ∧ c.toNat ≤ 90 then (c.toNat : Int) - 55
  else if c = '<' then 0
  else -1000

/-- Weight `CHECK_WEIGHTS[i % 3]` for the weight cycle `[7, 3, 1]`. -/
def checkWeight (i : Nat) : Int :=
  if i % 3 = 0 then 7 else if i % 3 = 1 then 3 else 1

/-- The weighted sum `res` of `MRZCheckDigit.__call__`, starting at position
`i`: recursive rendering of
`sum(CHECK_CODES.get(c, -1000) * CHECK_WEIGHTS[i % 3] for i, c in enumerate(txt))`. -/
def checkSumAux (i : Nat) : List Char → Int
  | [] => 0
  | ch :: rest => checkCode ch * checkWeight i + checkSumAux (i + 1) rest

/-- The weighted sum `res` of `MRZCheckDigit.__call__` over the whole string. -/
def checkSum (txt : List Char) : Int :=
  checkSumAux 0 txt

/-- `MRZCheckDigit.compute`: empty input gives `''`; a negative weighted sum
(which can only come from an out-of-alphabet character) gives `''`; otherwise
the single decimal digit `str(res % 10)`. -/
def computeCheckDigit (txt : List Char) : String :=
  if txt = [] then ""
  else if checkSum txt < 0 then ""
  else String.mk [Char.ofNat (48 + (checkSum txt % 10).toNat)]

/-! ### `MRZ._check_date` (text.py, lines 347-353)

`datetime.strptime(ymd, '%y%m%d')` succeeds on the six-character strings all
call sites pass exactly when: the year is two digits, the month is a two-digit
value `01`-`12`, and the day is either a two-digit value or CPython's
`' [1-9]'` space-day alternative, within the month's length.  The `%y` century
rule maps `00`-`68` to `2000`-`2068` and `69`-`99` to `1969`-`1999`. -/

/-- Numeric value of a decimal digit character. -/
def digitVal (c : Char) : Nat := c.toNat - 48

/-- Century mapping used by CPython's `%y`: `00`-`68` → `2000`-`2068`,
`69`-`99` → `1969`-`1999`. -/
def strptimeYear (yy : Nat) : Nat :=
  if yy ≤ 68 then 2000 + yy else 1900 + yy

/-- Gregorian leap-year rule (as used by `datetime`). -/
def isLeapYear (y : Nat) : Bool :=
  y % 4 = 0 && (y % 100 != 0 || y % 400 = 0)

/-- Length of month `m` in year `y` (as validated by `datetime`). -/
def daysInMonth (y m : Nat) : Nat :=
  if m = 2 then (if isLeapYear y then 29 else 28)
  else if m = 4 ∨ m = 6 ∨ m = 9 ∨ m = 11 then 30
  else 31

/-- `MRZ._check_date`: true iff `datetime.strptime(ymd, '%y%m%d')` does not
raise `ValueError`.  All call sites pass exactly six characters (every date
field is a width-6 slice of a line already padded to its canonical length);
on other lengths the parse cannot consume the whole string and the source
returns `False`, which the catch-all branch reproduces. -/
def checkDate (ymd : List Char) : Bool :=
  match ymd with
  | [y1, y2, m1, m2, d1, d2] =>
    y1.isDigit && y2.isDigit && m1.isDigit && m2.isDigit &&
    (let yy := 10 * digitVal y1 + digitVal y2
     let mm := 10 * digitVal m1 + digitVal m2
     let y := strptimeYear yy
     decide (1 ≤ mm) && decide (mm ≤ 12) &&
     (if d1 = ' ' then
        -- CPython's `%d` regex also accepts a space followed by a nonzero digit
        ('1' ≤ d2 && d2 ≤ '9') && decide (digitVal d2 ≤ daysInMonth y mm)
      else
        d1.isDigit && d2.isDigit &&
        (let dd := 10 * digitVal d1 + digitVal d2
         decide (1 ≤ dd) && decide (dd ≤ daysInMonth y mm))))
  | _ => false

/-! ### Field slicing helpers shared by the `_parse_td*` methods -/

/-- Python right-padding `a + '<' * (n - len(a))` applied when `len(a) < n`. -/
def padTo (n : Nat) (l : List Char) : List Char :=
  l ++ List.replicate (n - l.length) '<'

/-- Python slice `l[i:j]` (for `i ≤ j`, as at every call site). -/
def slice (l : List Char) (i j : Nat) : List Char :=
  (l.take j).drop i

/-- Python single-character read `l[i]`.  Call sites index lines already
padded past `i`, so the default is never reached. -/
def charAt (l : List Char) (i : Nat) : Char :=
  l.getD i ' '

/-- One-character Python string holding `c`, for comparisons such as
`MRZCheckDigit.compute(self.number) == self.check_number`. -/
def charStr (c : Char) : String := String.mk [c]

/-! ### `MRZ._parse_td1` (text.py, lines 235-272)

The surname/given-names split (`c.split('<<', 1)` plus filler replacement) only
feeds the reported name fields, not any validity flag or the score, and is not
needed by any claim; those two fields are omitted from the records below. -/

structure TD1Parse where
  type : List Char
  country : List Char
  number : List Char
  checkNumber : Char
  optional1 : List Char
  dateOfBirth : List Char
  checkDateOfBirth : Char
  sex : Char
  expirationDate : List Char
  checkExpirationDate : Char
  nationality : List Char
  optional2 : List Char
  checkComposite : Char
  validCheckDigits : List Bool
  validLineLengths : List Bool
  validMisc : List Bool
  validScore : Nat
  valid : Bool
deriving DecidableEq, Repr

def parseTD1 (a0 b0 c0 : List Char) : TD1Parse :=
  let lenA := a0.length
  let lenB := b0.length
  let lenC := c0.length
  let a := padTo 30 a0
  let b := padTo 30 b0
  let number := slice a 5 14
  let checkNumber := charAt a 14
  let dateOfBirth := slice b 0 6
  let checkDateOfBirth := charAt b 6
  let expirationDate := slice b 8 14
  let checkExpirationDate := charAt b 14
  let checkComposite := charAt b 29
  let vcd : List Bool :=
    [computeCheckDigit number == charStr checkNumber,
     (computeCheckDigit dateOfBirth == charStr checkDateOfBirth) && checkDate dateOfBirth,
     (computeCheckDigit expirationDate == charStr checkExpirationDate) && checkDate expirationDate,
     computeCheckDigit (slice a 5 30 ++ slice b 0 7 ++ slice b 8 15 ++ slice b 18 29)
       == charStr checkComposite]
  let vll : List Bool := [lenA == 30, lenB == 30, lenC == 30]
  let vm : List Bool := [charAt a 0 == 'I' || charAt a 0 == 'A' || charAt a 0 == 'C']
  let score := 100 * (10 * vcd.count true + vll.count true + vm.count true + 1) / (40 + 3 + 1 + 1)
  { type := slice a 0 2
    country := slice a 2 5
    number := number
    checkNumber := checkNumber
    optional1 := slice a 15 30
    dateOfBirth := dateOfBirth
    checkDateOfBirth := checkDateOfBirth
    sex := charAt b 7
    expirationDate := expirationDate
    checkExpirationDate := checkExpirationDate
    nationality := slice b 15 18
    optional2 := slice b 18 29
    checkComposite := checkComposite
    validCheckDigits := vcd
    validLineLengths := vll
    validMisc := vm
    validScore := score
    valid := score == 100 }

/-! ### `MRZ._parse_td2` (text.py, lines 274-307) -/

structure TD2Parse where
  type : List Char
  country : List Char
  number : List Char
  checkNumber : Char
  nationality : List Char
  dateOfBirth : List Char
  checkDateOfBirth : Char
  sex : Char
  expirationDate : List Char
  checkExpirationDate : Char
  optional1 : List Char
  checkComposite : Char
  validCheckDigits : List Bool
  validLineLengths : List Bool
  validMisc : List Bool
  validScore : Nat
  valid : Bool
deriving DecidableEq, Repr

def parseTD2 (a0 b0 : List Char) : TD2Parse :=
  let lenA := a0.length
  let lenB := b0.length
  let a := padTo 36 a0
  let b := padTo 36 b0
  let number := slice b 0 9
  let checkNumber := charAt b 9
  let dateOfBirth := slice b 13 19
  let checkDateOfBirth := charAt b 19
  let expirationDate := slice b 21 27
  let checkExpirationDate := charAt b 27
  let checkComposite := charAt b 35
  let vcd : List Bool :=
    [computeCheckDigit number == charStr checkNumber,
     (computeCheckDigit dateOfBirth == charStr checkDateOfBirth) && checkDate dateOfBirth,
     (computeCheckDigit expirationDate == charStr checkExpirationDate) && checkDate expirationDate,
     computeCheckDigit (slice b 0 10 ++ slice b 13 20 ++ slice b 21 35) == charStr checkComposite]
  let vll : List Bool := [lenA == 36, lenB == 36]
  let vm : List Bool := [charAt a 0 == 'A' || charAt a 0 == 'C' || charAt a 0 == 'I']
  let score := 100 * (10 * vcd.count true + vll.count true + vm.count true + 1) / (40 + 2 + 1 + 1)
  { type := slice a 0 2
    country := slice a 2 5
    number := number
    checkNumber := checkNumber
    nationality := slice b 10 13
    dateOfBirth := dateOfBirth
    checkDateOfBirth := checkDateOfBirth
    sex := charAt b 20
    expirationDate := expirationDate
    checkExpirationDate := checkExpirationDate
    optional1 := slice b 28 35
    checkComposite := checkComposite
    validCheckDigits := vcd
    validLineLengths := vll
    validMisc := vm
    validScore := score
    valid := score == 100 }

/-! ### `MRZ._parse_td3` (text.py, lines 309-345) -/

structure TD3Parse where
  type : List Char
  country : List Char
  number : List Char
  checkNumber : Char
  nationality : List Char
  dateOfBirth : List Char
  checkDateOfBirth : Char
  sex : Char
  expirationDate : List Char
  checkExpirationDate : Char
  personalNumber : List Char
  checkPersonalNumber : Char
  checkComposite : Char
  validCheckDigits : List Bool
  validLineLengths : List Bool
  validMisc : List Bool
  validScore : Nat
  valid : Bool
deriving DecidableEq, Repr

def parseTD3 (a0 b0 : List Char) : TD3Parse :=
  let lenA := a0.length
  let lenB := b0.length
  let a := padTo 44 a0
  let b := padTo 44 b0
  let number := slice b 0 9
  let checkNumber := charAt b 9
  let dateOfBirth := slice b 13 19
  let checkDateOfBirth := charAt b 19
  let expirationDate := slice b 21 27
  let checkExpirationDate := charAt b 27
  let personalNumber := slice b 28 42
  let checkPersonalNumber := charAt b 42
  let checkComposite := charAt b 43
  let vcd : List Bool :=
    [computeCheckDigit number == charStr checkNumber,
     (computeCheckDigit dateOfBirth == charStr checkDateOfBirth) && checkDate dateOfBirth,
     (computeCheckDigit expirationDate == charStr checkExpirationDate) && checkDate expirationDate,
     computeCheckDigit (slice b 0 10 ++ slice b 13 20 ++ slice b 21 43) == charStr checkComposite,
     ((checkPersonalNumber == '<' || checkPersonalNumber == '0')
        && personalNumber == List.replicate 14 '<')
       || computeCheckDigit personalNumber == charStr checkPersonalNumber]
  let vll : List Bool := [lenA == 44, lenB == 44]
  let vm : List Bool := [charAt a 0 == 'P']
  let score := 100 * (10 * vcd.count true + vll.count true + vm.count true + 1) / (50 + 2 + 1 + 1)
  { type := slice a 0 2
    country := slice a 2 5
    number := number
    checkNumber := checkNumber
    nationality := slice b 10 13
    dateOfBirth := dateOfBirth
    checkDateOfBirth := checkDateOfBirth
    sex := charAt b 20
    expirationDate := expirationDate
    checkExpirationDate := checkExpirationDate
    personalNumber := personalNumber
    checkPersonalNumber := checkPersonalNumber
    checkComposite := checkComposite
    validCheckDigits := vcd
    validLineLengths := vll
    validMisc := vm
    validScore := score
    valid := score == 100 }

/-! ### `MRZ._parse_mrv` (text.py, lines 355-386)

Note the source's padding quirk: lines shorter than `length` are extended by
`'<' * (44 - len(line))` — the literal `44` is used even for MRVB
(`length = 36`); the embedding reproduces it. -/

structure MRVParse where
  type : List Char
  country : List Char
  number : List Char
  checkNumber : Char
  nationality : List Char
  dateOfBirth : List Char
  checkDateOfBirth : Char
  sex : Char
  expirationDate : List Char
  checkExpirationDate : Char
  optional1 : List Char
  validCheckDigits : List Bool
  validLineLengths : List Bool
  validMisc : List Bool
  validScore : Nat
  valid : Bool
deriving DecidableEq, Repr

/-- The `if len(a) < length: a = a + '<' * (44 - len(a))` padding of
`_parse_mrv`. -/
def mrvPad (length : Nat) (l : List Char) : List Char :=
  if l.length < length then l ++ List.replicate (44 - l.length) '<' else l

def parseMRV (a0 b0 : List Char) (length : Nat) : MRVParse :=
  let lenA := a0.length
  let lenB := b0.length
  let a := mrvPad length a0
  let b := mrvPad length b0
  let number := slice b 0 9
  let checkNumber := charAt b 9
  let dateOfBirth := slice b 13 19
  let checkDateOfBirth := charAt b 19
  let expirationDate := slice b 21 27
  let checkExpirationDate := charAt b 27
  let vcd : List Bool :=
    [computeCheckDigit number == charStr checkNumber,
     computeCheckDigit dateOfBirth == charStr checkDateOfBirth,
     computeCheckDigit expirationDate == charStr checkExpirationDate]
  let vll : List Bool := [lenA == length, lenB == length]
  let vm : List Bool := [charAt a 0 == 'V']
  let score := 100 * (10 * vcd.count true + vll.count true + vm.count true + 1) / (30 + 2 + 1 + 1)
  { type := slice a 0 2
    country := slice a 2 5
    number := number
    checkNumber := checkNumber
    nationality := slice b 10 13
    dateOfBirth := dateOfBirth
    checkDateOfBirth := checkDateOfBirth
    sex := charAt b 20
    expirationDate := expirationDate
    checkExpirationDate := checkExpirationDate
    optional1 := slice b 28 length
    validCheckDigits := vcd
    validLineLengths := vll
    validMisc := vm
    validScore := score
    valid := score == 100 }

/-! ### `MRZ._guess_type` and `MRZ._parse` (text.py, lines 132-185)

`MRZ(mrz_lines)` accepts an arbitrary Python list; elements that are not
strings make `len(element)` / `element[0]` raise, which the `try`/`except`
blocks turn into a `None` guess or a reset `mrz_type`.  A list element is
therefore modelled as either a string or an arbitrary non-string value. -/

inductive MRZType where
  | TD1 | TD2 | TD3 | MRVA | MRVB
deriving DecidableEq, Repr

inductive PyVal where
  | str (s : List Char)
  | nonstr
deriving DecidableEq, Repr

/-- Branch `'MRVB' if mrz_lines[0][0].upper() == 'V' else 'TD2'` (and its
MRVA/TD3 twin): indexing an empty first line raises, which the surrounding
`except` turns into `None`. -/
def headUpperBranch (a : List Char) (v other : MRZType) : Option MRZType :=
  match a with
  | [] => none
  | c :: _ => some (if c.toUpper = 'V' then v else other)

/-- `MRZ._guess_type`, including Python's short-circuit evaluation: for a
two-element list, `len(mrz_lines[0])` is evaluated first (raising on a
non-string first element), and `len(mrz_lines[1])` is only evaluated when the
first line is shorter than 40. -/
def guessType (lines : List PyVal) : Option MRZType :=
  if lines.length = 3 then some .TD1
  else
    match lines with
    | [.str a, y] =>
      if a.length < 40 then
        match y with
        | .str b =>
          if b.length < 40 then headUpperBranch a .MRVB .TD2
          else headUpperBranch a .MRVA .TD3
        | .nonstr => none
      else headUpperBranch a .MRVA .TD3
    | [.nonstr, _] => none
    | _ => none

/-- The fields of the parsed object that `MRZ._parse` itself determines
(`mrz_type`, `valid`, `valid_score`); per-variant fields live in the
`TD1Parse`/`TD2Parse`/`TD3Parse`/`MRVParse` records. -/
structure MRZResult where
  mrzType : Option MRZType
  valid : Bool
  validScore : Nat
deriving DecidableEq, Repr

/-- `MRZ._parse`: guess the type, dispatch to the variant parser, and catch
any exception from the body by resetting `mrz_type` to `None` with
`valid_score = 0`.  With string arguments the variant parsers cannot raise
(every index is within the padded length); the only body failure is argument
unpacking over non-string elements, covered by the catch-all branch. -/
def parse (lines : List PyVal) : MRZResult :=
  match guessType lines with
  | none => ⟨none, false, 0⟩
  | some t =>
    match t, lines with
    | .TD1, [.str a, .str b, .str c] =>
      let r := parseTD1 a b c; ⟨some .TD1, r.valid, r.validScore⟩
    | .TD2, [.str a, .str b] =>
      let r := parseTD2 a b; ⟨some .TD2, r.valid, r.validScore⟩
    | .TD3, [.str a, .str b] =>
      let r := parseTD3 a b; ⟨some .TD3, r.valid, r.validScore⟩
    | .MRVA, [.str a, .str b] =>
      let r := parseMRV a b 44; ⟨some .MRVA, r.valid, r.validScore⟩
    | .MRVB, [.str a, .str b] =>
      let r := parseMRV a b 36; ⟨some .MRVB, r.valid, r.validScore⟩
    | _, _ => ⟨none, false, 0⟩

/-! ### `MRZOCRCleaner` (text.py, lines 389-464) -/

/-- Per-position character-class masks `MRZOCRCleaner.FORMAT`:
`a` alpha, `A` alpha+filler, `n` numeric, `N` numeric+filler, `*` any. -/
def FORMAT : MRZType → List (List Char)
  | .TD1 =>
    [['a', '*'] ++ List.replicate 3 'A' ++ List.replicate 9 '*' ++ ['N'] ++ List.replicate 15 '*',
     List.replicate 7 'n' ++ ['A'] ++ List.replicate 7 'n' ++ List.replicate 3 'A'
       ++ List.replicate 11 '*' ++ ['n'],
     List.replicate 30 'A']
  | .TD2 =>
    [['a'] ++ List.replicate 35 'A',
     List.replicate 9 '*' ++ ['n'] ++ List.replicate 3 'A' ++ List.replicate 7 'n' ++ ['A']
       ++ List.replicate 7 'n' ++ List.replicate 7 '*' ++ List.replicate 1 'n']
  | .TD3 =>
    [['a'] ++ List.replicate 43 'A',
     List.replicate 9 '*' ++ ['n'] ++ List.replicate 3 'A' ++ List.replicate 7 'n' ++ ['A']
       ++ List.replicate 7 'n' ++ List.replicate 14 '*' ++ List.replicate 2 'n']
  | .MRVA | .MRVB =>
    [['a'] ++ List.replicate 43 'A',
     List.replicate 9 '*' ++ ['n'] ++ List.replicate 3 'A' ++ List.replicate 7 'n' ++ ['A']
       ++ List.replicate 7 'n' ++ List.replicate 16 '*']

/-- The `a` fixer dict (digit-lookalikes to letters), with `dict.get`'s
identity default. -/
def fixerA : Char → Char
  | '0' => 'O' | '1' => 'I' | '2' => 'Z' | '4' => 'A'
  | '5' => 'S' | '6' => 'G' | '8' => 'B'
  | c => c

/-- The `n` fixer dict (letter-lookalikes to digits), with `dict.get`'s
identity default. -/
def fixerN : Char → Char
  | 'B' => '8' | 'C' => '0' | 'D' => '0' | 'G' => '6' | 'I' => '1'
  | 'O' => '0' | 'Q' => '0' | 'S' => '5' | 'Z' => '2'
  | c => c

/-- `MRZOCRCleaner.FIXERS[cls]`: the `a` fixer for classes `a`/`A`, the `n`
fixer for `n`/`N`, and the empty dict (identity lookup) for `*`.  `FORMAT`
contains no class character outside these five, so the fall-through branch is
unreachable from the cleaner. -/
def fixerFor (cls : Char) : Char → Char :=
  if cls = 'a' ∨ cls = 'A' then fixerA
  else if cls = 'n' ∨ cls = 'N' then fixerN
  else id

/-- `MRZOCRCleaner._fix_char`: positions beyond the variant's mask are
returned untouched; at masked positions the character is uppercased and looked
up in the class fixer.  Callers pass `lineIdx` below the number of mask lines,
matching Python's `self.FORMAT[type][line_idx]` list indexing. -/
def fixChar (tp : MRZType) (lineIdx charIdx : Nat) (c : Char) : Char :=
  let fmt := (FORMAT tp).getD lineIdx []
  if fmt.length ≤ charIdx then c
  else fixerFor (fmt.getD charIdx ' ') c.toUpper

/-- `MRZOCRCleaner._fix_line`: fix every character of a line at its column. -/
def fixLine (tp : MRZType) (lineIdx : Nat) (line : List Char) : List Char :=
  line.mapIdx (fun j c => fixChar tp lineIdx j c)

/-! ### `FindFirstValidMRZ.__call__` (image.py, lines 208-222)

A box's region of interest and OCR text only flow through opaquely; what the
loop inspects is the parsed record's `valid` flag and `valid_score`, so a
candidate box is modelled by the record its `BoxToMRZ` call produces. -/

structure MRZRec where
  valid : Bool
  validScore : Nat
deriving DecidableEq, Repr

/-- The loop of `FindFirstValidMRZ.__call__`: `i` is the index of the head of
`recs` in the original box list, `acc` the `mrzs` accumulator of records with
positive score.  On exhaustion, Python's stable ascending sort by score
followed by `mrzs[-1]` is rendered by `List.mergeSort` (also stable) and
`getLast?`. -/
def findLoop : List MRZRec → Nat → List (Nat × MRZRec) → Option (Nat × MRZRec)
  | [], _, acc =>
    (acc.mergeSort (fun x y => decide (x.2.validScore ≤ y.2.validScore))).getLast?
  | r :: rest, i, acc =>
    if r.valid then some (i, r)
    else findLoop rest (i + 1) (if 0 < r.validScore then acc ++ [(i, r)] else acc)

/-- `FindFirstValidMRZ.__call__` over the records of the ordered candidate
boxes; `none` models the `(None, None, None, None)` return. -/
def findFirstValidMRZ (recs : List MRZRec) : Option (Nat × MRZRec) :=
  findLoop recs 0 []

/-! ### `ocr` (util/ocr.py, lines 15-62)

Everything after the issue-34 guard — tempfiles, dtype conversion, the
tesseract invocation and reading its output — is the external engine,
abstracted as a function of the image.  The second component of the result
records whether the engine was invoked; `none` models an uncaught exception
(`img.shape[-1]` on a zero-dimensional array). -/

structure NpImage where
  shape : List Nat
deriving DecidableEq, Repr

def ocr (engine : NpImage → String) (img : Option NpImage) : Option (String × Bool) :=
  match img with
  | none => some ("", false)
  | some im =>
    match im.shape.getLast? with
    | none => none
    | some n => if n = 0 then some ("", false) else some (engine im, true)

/-! ### `Pipeline` (util/pipeline.py)

The memo store `self.data` is a Python dict; `invalidate`/`remove_component`
only ever *delete* entries and never write one, so a key's value is retained
exactly when the key stays in the store.  The store is therefore modelled by
its key set (a `Finset String`); `add_component` does not touch the store, so
`replace_component`'s effect on it is that of `remove_component` alone. -/

structure Comp where
  name : String
  provides : List String
  depends : List String
deriving DecidableEq, Repr

/-- The `components`/`provides`/`depends` dicts, keyed in insertion order. -/
abbrev Graph := List Comp

/-- The keys invalidated one step downstream of `key`:
`for cname in components: if key in depends[cname]: for p in provides[cname]`. -/
def downstreamKeys (g : Graph) (k : String) : List String :=
  (g.filter (fun c => c.depends.contains k)).flatMap (fun c => c.provides)

/-- `Pipeline.invalidate` with explicit recursion fuel.  Each effective call
removes a key from the store before recursing, so any fuel above the store's
size makes the fuel-exhaustion branch unreachable (`invFuel_fuel_irrelevant`
below). -/
def invFuel (g : Graph) : Nat → String → Finset String → Finset String
  | 0, _, d => d
  | n + 1, k, d =>
    if k ∈ d then
      (downstreamKeys g k).foldl (fun d2 k2 => invFuel g n k2 d2) (d.erase k)
    else d

/-- `Pipeline.invalidate(key)`: delete the key if memoized, then recursively
invalidate every key provided by a component that depends on it. -/
def invalidate (g : Graph) (k : String) (d : Finset String) : Finset String :=
  invFuel g (d.card + 1) k d

/-- The component dicts after `del self.components[name]` etc. -/
def removeGraph (g : Graph) (name : String) : Graph :=
  g.filter (fun c => c.name ≠ name)

/-- `self.provides[name]` for the component being removed. -/
def providesOf (g : Graph) (name : String) : List String :=
  match g.find? (fun c => c.name == name) with
  | some c => c.provides
  | none => []

/-- Effect of `Pipeline.remove_component(name)` on the memo store: the
component is deleted from the dicts first, then each of its output keys is
invalidated in turn.  `replace_component` is `remove_component` followed by
`add_component`, and the latter never touches the store, so this is also the
store effect of `replace_component`. -/
def removeData (g : Graph) (name : String) (d : Finset String) : Finset String :=
  (providesOf g name).foldl (fun d2 p => invalidate (removeGraph g name) p d2) d

/-- Reachability through the declared depends/provides edges: `Reach g k x`
holds when `x` is `k` itself or is provided by a component that (directly or
transitively) depends on `k`. -/
inductive Reach (g : Graph) : String → String → Prop
  | refl (k : String) : Reach g k k
  | step {k k2 x : String} (c : Comp) : c ∈ g → k ∈ c.depends → k2 ∈ c.provides →
      Reach g k2 x → Reach g k x

/-- Membership of `x` in the transitive closure of the removed component's
output keys (edges taken in the graph with the component removed, as in the
source, where `components[name]` is deleted before any invalidation runs). -/
def ReachFromOutputs (g : Graph) (name : String) (x : String) : Prop :=
  ∃ o ∈ providesOf g name, Reach (removeGraph g name) o x

/-! ### `MRZBoxLocator.__call__` (image.py, lines 97-135)

`RotatedBox.from_points` orients the contour with a PCA (floating-point,
external per the spec's §6 orientation-estimator contract) and is abstracted
as a `fit` function of the point cloud and the mode string; the locator's
control flow around it — the minimum-area filter on the raw bounding box, the
mode string taken from `self.box_type`, the aspect filter, the area-descending
sort and the `[0:max_boxes]` truncation — is embedded exactly.  Coordinates
are exact rationals in place of floats. -/

structure RBox where
  width : ℚ
  height : ℚ
deriving DecidableEq, Repr

def RBox.area (b : RBox) : ℚ := b.width * b.height

abbrev Contour := List (ℚ × ℚ)

structure LocatorCfg where
  maxBoxes : Nat
  minPointsInContour : Nat
  minArea : ℚ
  minBoxAspect : ℚ
  boxType : String
deriving DecidableEq, Repr

/-- `MRZBoxLocator.__init__` defaults (`angle_tol`/`lineskip_tol` govern only
the merge step, which is outside the claim); note `box_type='bb'`. -/
def defaultLocator : LocatorCfg :=
  { maxBoxes := 4, minPointsInContour := 50, minArea := 500, minBoxAspect := 5, boxType := "bb" }

/-- Componentwise `np.max(c, 0) - np.min(c, 0)` of a contour.
`find_contours` never returns an empty contour (`np.min` would raise); the
empty case yields a zero extent, which the area filter discards. -/
def contourWH (c : Contour) : ℚ × ℚ :=
  match c with
  | [] => (0, 0)
  | p :: ps =>
    (ps.foldl (fun m q => max m q.1) p.1 - ps.foldl (fun m q => min m q.1) p.1,
     ps.foldl (fun m q => max m q.2) p.2 - ps.foldl (fun m q => min m q.2) p.2)

/-- The `wh[0] * wh[1] < self.min_area` test that `continue`s past a contour. -/
def smallContour (cfg : LocatorCfg) (c : Contour) : Bool :=
  decide ((contourWH c).1 * (contourWH c).2 < cfg.minArea)

/-- The `rb.height == 0 or rb.width / rb.height < self.min_box_aspect` test
that `continue`s past a fitted box. -/
def badAspect (cfg : LocatorCfg) (rb : RBox) : Bool :=
  decide (rb.height = 0) || decide (rb.width / rb.height < cfg.minBoxAspect)

/-- The collection loop of `MRZBoxLocator.__call__`: each contour surviving
the area filter is fitted with `RotatedBox.from_points(c, self.box_type)` and
kept unless its aspect is too small. -/
def locatorCollect (fit : Contour → String → RBox) (cfg : LocatorCfg) : List Contour → List RBox
  | [] => []
  | c :: rest =>
    if smallContour cfg c then locatorCollect fit cfg rest
    else
      let rb := fit c cfg.boxType
      if badAspect cfg rb then locatorCollect fit cfg rest
      else rb :: locatorCollect fit cfg rest

/-- `results.sort(key=lambda x: -x.area)`: Python's stable sort ascending in
`-area`, rendered by the (equally stable) `List.mergeSort`. -/
def sortByAreaDesc (l : List RBox) : List RBox :=
  l.mergeSort (fun b1 b2 => decide (-b1.area ≤ -b2.area))

/-- The value handed to `self._merge_boxes` — the locator's output up to (and
excluding) the merge and angle-fixup steps: collected boxes, sorted by area
descending, truncated to `max_boxes`. -/
def locatorPremerge (fit : Contour → String → RBox) (cfg : LocatorCfg)
    (cs : List Contour) : List RBox :=
  (sortByAreaDesc (locatorCollect fit cfg cs)).take cfg.maxBoxes

/-! ### Claim-side definitions

The definitions below restate claim text, to be compared with the embedded
source functions above; each is named after the claim it renders. -/

/-- Character values as claim C2 states them: each digit maps to its own
value, letters `A`-`Z` map to `10`-`35`, the filler `<` maps to `0`, and
`none` marks a character outside that alphabet. -/
def specCharValue (c : Char) : Option Nat :=
  if 48 ≤ c.toNat ∧ c.toNat ≤ 57 then some (c.toNat - 48)
  else if 65 ≤ c.toNat ∧ c.toNat ≤ 90 then some (c.toNat - 55)
  else if c = '<' then some 0
  else none

/-- The weight cycle `[7,3,1]` applied positionally, as claim C2 states it. -/
def specWeight (i : Nat) : Nat :=
  if i % 3 = 0 then 7 else if i % 3 = 1 then 3 else 1

/-- The claimed weighted sum `Σ value·weight` over an in-alphabet string,
starting at position `i`. -/
def specWeightedSum (i : Nat) : List Char → Nat
  | [] => 0
  | c :: rest => (specCharValue c).getD 0 * specWeight i + specWeightedSum (i + 1) rest

/-- Claim C2's second half as stated: every input containing at least one
character outside the alphabet (anywhere, of any length) yields `''`. -/
def c2ClaimInvalidInput : Prop :=
  ∀ txt : List Char, (∃ c ∈ txt, specCharValue c = none) → computeCheckDigit txt = ""

/-- Claim C3 as stated: `replace(name, ...)` removes exactly the memoized
keys in the transitive closure of the replaced component's output keys. -/
def c3ClaimExactClosure : Prop :=
  ∀ (g : Graph) (name : String) (d : Finset String),
    (g.map Comp.name).contains name = true →
    ∀ x ∈ d, (x ∉ removeData g name d ↔ ReachFromOutputs g name x)

/-- Claim C5's description of the locator's pre-merge value: every surviving
contour fitted in the trimmed mode (the source's `'mrz'` box type), aspect
filter, area-descending sort, at most 4 boxes kept. -/
def locatorPremergeClaimed (fit : Contour → String → RBox) (cfg : LocatorCfg)
    (cs : List Contour) : List RBox :=
  (sortByAreaDesc (((cs.filter (fun c => !smallContour cfg c)).map
    (fun c => fit c "mrz")).filter (fun rb => !badAspect cfg rb))).take 4

/-- Claim C5 as stated, over an arbitrary fitting function. -/
def c5ClaimTrimmedFit : Prop :=
  ∀ (fit : Contour → String → RBox) (cs : List Contour),
    locatorPremerge fit defaultLocator cs = locatorPremergeClaimed fit defaultLocator cs

/-- Character-class mask entry at a line/column position of a variant. -/
def classAt (tp : MRZType) (i j : Nat) : Char :=
  ((FORMAT tp).getD i []).getD j ' '

/-- Number of masked columns of a variant's line. -/
def maskLen (tp : MRZType) (i : Nat) : Nat :=
  ((FORMAT tp).getD i []).length

/-- Claim C8 as stated: at alphabetic-only positions the listed
digit-lookalikes become letters, at numeric-only positions the listed
letter-lookalikes become digits, mixed-class positions are left untouched,
and positions beyond the variant's field map are left untouched. -/
def c8ClaimRemap : Prop :=
  ∀ (tp : MRZType) (i j : Nat), i < (FORMAT tp).length →
    (j < maskLen tp i →
      ((classAt tp i j = 'a' ∨ classAt tp i j = 'A') →
        fixChar tp i j '0' = 'O' ∧ fixChar tp i j '1' = 'I' ∧ fixChar tp i j '2' = 'Z'
          ∧ fixChar tp i j '4' = 'A' ∧ fixChar tp i j '5' = 'S' ∧ fixChar tp i j '6' = 'G'
          ∧ fixChar tp i j '8' = 'B')
      ∧ ((classAt tp i j = 'n' ∨ classAt tp i j = 'N') →
        fixChar tp i j 'B' = '8' ∧ fixChar tp i j 'C' = '0' ∧ fixChar tp i j 'D' = '0'
          ∧ fixChar tp i j 'G' = '6' ∧ fixChar tp i j 'I' = '1' ∧ fixChar tp i j 'O' = '0'
          ∧ fixChar tp i j 'Q' = '0' ∧ fixChar tp i j 'S' = '5' ∧ fixChar tp i j 'Z' = '2')
      ∧ (classAt tp i j = '*' → ∀ c, fixChar tp i j c = c))
    ∧ (maskLen tp i ≤ j → ∀ c, fixChar tp i j c = c)

/-- Claim C9 as stated: a two-line input with a line of length 40 or more is
guessed TD3, or MRVA when the first line's first character is `V` (the code's
test is case-insensitive; an empty first line has no first character and the
claim's default TD3 applies). -/
def c9ClaimMixedLength : Prop :=
  ∀ a b : List Char, 40 ≤ a.length ∨ 40 ≤ b.length →
    guessType [.str a, .str b] =
      some (if (a.headD ' ').toUpper = 'V' then MRZType.MRVA else MRZType.TD3)

/-! ## Theorems -/

/-! ### Check digit lemmas (claim C2) -/

theorem checkCode_of_valid {c : Char} {v : Nat} (h : specCharValue c = some v) :
    checkCode c = v := by
  unfold specCharValue at h
  unfold checkCode
  split_ifs at h ⊢ with h1 h2 h3 <;> injection h with h <;> omega

theorem checkCode_of_invalid {c : Char} (h : specCharValue c = none) :
    checkCode c = -1000 := by
  unfold specCharValue at h
  unfold checkCode
  split_ifs at h ⊢ with h1 h2 h3 <;> simp_all

theorem checkCode_le (c : Char) : checkCode c ≤ 35 := by
  unfold checkCode
  split_ifs with h1 h2 h3 <;> omega

theorem checkWeight_pos (i : Nat) : 1 ≤ checkWeight i := by
  unfold checkWeight
  split_ifs <;> omega

theorem checkWeight_le (i : Nat) : checkWeight i ≤ 7 := by
  unfold checkWeight
  split_ifs <;> omega

theorem checkWeight_eq_specWeight (i : Nat) : checkWeight i = (specWeight i : Int) := by
  unfold checkWeight specWeight
  split_ifs <;> simp

theorem checkTerm_le (c : Char) (i : Nat) : checkCode c * checkWeight i ≤ 245 := by
  have hc := checkCode_le c
  have h1 := checkWeight_pos i
  have h7 := checkWeight_le i
  rcases le_or_lt 0 (checkCode c) with hpos | hneg
  · calc checkCode c * checkWeight i ≤ 35 * 7 :=
          mul_le_mul hc h7 (by omega) (by omega)
      _ ≤ 245 := by omega
  · have : checkCode c * checkWeight i ≤ 0 :=
      mul_nonpos_iff.2 (Or.inr ⟨le_of_lt hneg, by omega⟩)
    omega

theorem checkSumAux_eq_spec :
    ∀ (txt : List Char) (i : Nat), (∀ c ∈ txt, (specCharValue c).isSome) →
      checkSumAux i txt = (specWeightedSum i txt : Int) := by
  intro txt
  induction txt with
  | nil => intro i _; simp [checkSumAux, specWeightedSum]
  | cons c rest ih =>
    intro i h
    obtain ⟨v, hv⟩ := Option.isSome_iff_exists.1 (h c (List.mem_cons_self c rest))
    have hrest := ih (i + 1) (fun x hx => h x (List.mem_cons_of_mem c hx))
    simp only [checkSumAux, specWeightedSum, hrest, checkCode_of_valid hv, hv,
      checkWeight_eq_specWeight, Option.getD_some]
    push_cast
    ring

theorem checkSumAux_le :
    ∀ (txt : List Char) (i : Nat), checkSumAux i txt ≤ 245 * txt.length := by
  intro txt
  induction txt with
  | nil => intro i; simp [checkSumAux]
  | cons c rest ih =>
    intro i
    have h1 := checkTerm_le c i
    have h2 := ih (i + 1)
    simp only [checkSumAux, List.length_cons]
    push_cast
    linarith

theorem checkSumAux_invalid :
    ∀ (txt : List Char) (i : Nat), (∃ c ∈ txt, specCharValue c = none) →
      checkSumAux i txt ≤ 245 * txt.length - 1245 := by
  intro txt
  induction txt with
  | nil => intro i h; simp at h
  | cons c rest ih =>
    intro i h
    rcases h with ⟨x, hx, hxinv⟩
    rcases List.mem_cons.1 hx with hhead | htail
    · subst hhead
      have hterm : checkCode x * checkWeight i ≤ -1000 := by
        rw [checkCode_of_invalid hxinv]
        have h1 := checkWeight_pos i
        nlinarith
      have h2 := checkSumAux_le rest (i + 1)
      simp only [checkSumAux, List.length_cons]
      push_cast
      linarith
    · have hterm := checkTerm_le c i
      have h2 := ih (i + 1) ⟨x, htail, hxinv⟩
      simp only [checkSumAux, List.length_cons]
      push_cast
      push_cast at h2
      linarith

/-- C2 (corrected): for every nonempty input over the check-digit alphabet the
computation returns the single decimal digit `(Σ value·weight) mod 10`; the
empty string returns `''`; the result is `''` exactly when the input is empty
or the weighted sum — in which each out-of-alphabet character contributes
`-1000` times its positional weight — is negative; in particular every string
of length at most 5 containing an out-of-alphabet character returns `''`
(longer strings need not: see `c2_counterexample`). -/
theorem c2_check_digit_amended :
    (∀ txt : List Char, txt ≠ [] → (∀ c ∈ txt, (specCharValue c).isSome) →
       computeCheckDigit txt = String.mk [Char.ofNat (48 + specWeightedSum 0 txt % 10)])
    ∧ computeCheckDigit [] = ""
    ∧ (∀ txt : List Char, computeCheckDigit txt = "" ↔ txt = [] ∨ checkSum txt < 0)
    ∧ (∀ txt : List Char, txt.length ≤ 5 → (∃ c ∈ txt, specCharValue c = none) →
       computeCheckDigit txt = "") := by
  refine ⟨?_, rfl, ?_, ?_⟩
  · intro txt hne hval
    have hsum : checkSum txt = (specWeightedSum 0 txt : Int) := checkSumAux_eq_spec txt 0 hval
    have hnonneg : ¬ checkSum txt < 0 := by rw [hsum]; exact not_lt.2 (Int.natCast_nonneg _)
    have htn : (checkSum txt % 10).toNat = specWeightedSum 0 txt % 10 := by
      rw [hsum]; omega
    unfold computeCheckDigit
    rw [if_neg hne, if_neg hnonneg, htn]
  · intro txt
    by_cases hne : txt = []
    · simp [computeCheckDigit, hne]
    · by_cases hs : checkSum txt < 0
      · simp [computeCheckDigit, hne, hs]
      · simp [computeCheckDigit, hne, hs, String.ext_iff]
  · intro txt hlen hinv
    have hne : txt ≠ [] := by
      rcases hinv with ⟨c, hc, _⟩
      exact List.ne_nil_of_mem hc
    have hbound := checkSumAux_invalid txt 0 hinv
    have hneg : checkSum txt < 0 := by
      have hl : (txt.length : Int) ≤ 5 := by exact_mod_cast hlen
      unfold checkSum
      linarith
    simp [computeCheckDigit, hne, hneg]

/-- Witness for C2: the amended theorem applied to the in-alphabet input
`"7"`, whose weighted sum is `7·7 = 49` and check digit `'9'`. -/
theorem c2_witness : computeCheckDigit ['7'] = "9" := by
  have h := c2_check_digit_amended.1 ['7'] (by decide) (by decide)
  exact h.trans (by decide)

/-- Counterexample for C2 as stated: `"ZZ!ZZZZZZZZ"` contains the
out-of-alphabet character `'!'`, yet its weighted sum
`35·(7+3) - 1000·1 + 35·(7+3+1+7+3+1+7+3) = 470` is non-negative, so the
computation returns `"0"`, not `''`. -/
theorem c2_counterexample : ¬ c2ClaimInvalidInput := by
  intro h
  exact absurd (h "ZZ!ZZZZZZZZ".toList (by decide)) (by decide)

/-! ### Score formula lemmas (claim C1) -/

theorem scoreBounds (cd ll m : List Bool) (N : Nat)
    (hN : 10 * cd.length + ll.length + m.length + 1 = N) (h0 : 0 < N) (h100 : N ≤ 100) :
    ((∀ f ∈ cd ++ ll ++ m, f = true) →
       100 * (10 * cd.count true + ll.count true + m.count true + 1) / N = 100)
    ∧ ((∀ f ∈ cd ++ ll ++ m, f = false) →
       1 ≤ 100 * (10 * cd.count true + ll.count true + m.count true + 1) / N) := by
  constructor
  · intro h
    have hcd : cd.count true = cd.length :=
      List.count_eq_length.2 (fun b hb => (h b (by simp [hb])).symm)
    have hll : ll.count true = ll.length :=
      List.count_eq_length.2 (fun b hb => (h b (by simp [hb])).symm)
    have hm : m.count true = m.length :=
      List.count_eq_length.2 (fun b hb => (h b (by simp [hb])).symm)
    rw [hcd, hll, hm, hN]
    exact Nat.mul_div_cancel 100 h0
  · intro h
    have hcd : cd.count true = 0 :=
      List.count_eq_zero.2 (fun hmem => by have := h true (by simp [hmem]); simp at this)
    have hll : ll.count true = 0 :=
      List.count_eq_zero.2 (fun hmem => by have := h true (by simp [hmem]); simp at this)
    have hm : m.count true = 0 :=
      List.count_eq_zero.2 (fun hmem => by have := h true (by simp [hmem]); simp at this)
    rw [hcd, hll, hm]
    norm_num
    exact (Nat.one_le_div_iff h0).2 h100

/-- C1 (corrected): each variant parser computes `valid_score` as
`100 * (10·Σcheck_digit_valid + Σline_length_valid + Σmisc_valid + 1)`
integer-divided by the variant normalizer — which is `45` for TD1 (not `44`
as claimed; TD1 has three line-length checks, so `40+3+1+1 = 45`), `44` for
TD2, `54` for TD3 and `34` for MRVA/MRVB — and with these normalizers a parse
in which every check passes scores exactly 100 while one in which every check
fails still scores at least 1. -/
theorem c1_valid_score_amended :
    (∀ a b c : List Char,
       (parseTD1 a b c).validScore =
         100 * (10 * (parseTD1 a b c).validCheckDigits.count true
           + (parseTD1 a b c).validLineLengths.count true
           + (parseTD1 a b c).validMisc.count true + 1) / 45
       ∧ ((∀ f ∈ (parseTD1 a b c).validCheckDigits ++ (parseTD1 a b c).validLineLengths
             ++ (parseTD1 a b c).validMisc, f = true) → (parseTD1 a b c).validScore = 100)
       ∧ ((∀ f ∈ (parseTD1 a b c).validCheckDigits ++ (parseTD1 a b c).validLineLengths
             ++ (parseTD1 a b c).validMisc, f = false) → 1 ≤ (parseTD1 a b c).validScore))
    ∧ (∀ a b : List Char,
       (parseTD2 a b).validScore =
         100 * (10 * (parseTD2 a b).validCheckDigits.count true
           + (parseTD2 a b).validLineLengths.count true
           + (parseTD2 a b).validMisc.count true + 1) / 44
       ∧ ((∀ f ∈ (parseTD2 a b).validCheckDigits ++ (parseTD2 a b).validLineLengths
             ++ (parseTD2 a b).validMisc, f = true) → (parseTD2 a b).validScore = 100)
       ∧ ((∀ f ∈ (parseTD2 a b).validCheckDigits ++ (parseTD2 a b).validLineLengths
             ++ (parseTD2 a b).validMisc, f = false) → 1 ≤ (parseTD2 a b).validScore))
    ∧ (∀ a b : List Char,
       (parseTD3 a b).validScore =
         100 * (10 * (parseTD3 a b).validCheckDigits.count true
           + (parseTD3 a b).validLineLengths.count true
           + (parseTD3 a b).validMisc.count true + 1) / 54
       ∧ ((∀ f ∈ (parseTD3 a b).validCheckDigits ++ (parseTD3 a b).validLineLengths
             ++ (parseTD3 a b).validMisc, f = true) → (parseTD3 a b).validScore = 100)
       ∧ ((∀ f ∈ (parseTD3 a b).validCheckDigits ++ (parseTD3 a b).validLineLengths
             ++ (parseTD3 a b).validMisc, f = false) → 1 ≤ (parseTD3 a b).validScore))
    ∧ (∀ (a b : List Char) (len : Nat),
       (parseMRV a b len).validScore =
         100 * (10 * (parseMRV a b len).validCheckDigits.count true
           + (parseMRV a b len).validLineLengths.count true
           + (parseMRV a b len).validMisc.count true + 1) / 34
       ∧ ((∀ f ∈ (parseMRV a b len).validCheckDigits ++ (parseMRV a b len).validLineLengths
             ++ (parseMRV a b len).validMisc, f = true) → (parseMRV a b len).validScore = 100)
       ∧ ((∀ f ∈ (parseMRV a b len).validCheckDigits ++ (parseMRV a b len).validLineLengths
             ++ (parseMRV a b len).validMisc, f = false) → 1 ≤ (parseMRV a b len).validScore)) := by
  refine ⟨fun a b c => ?_, fun a b => ?_, fun a b => ?_, fun a b len => ?_⟩
  · have e : (parseTD1 a b c).validScore =
        100 * (10 * (parseTD1 a b c).validCheckDigits.count true
          + (parseTD1 a b c).validLineLengths.count true
          + (parseTD1 a b c).validMisc.count true + 1) / 45 := rfl
    have hb := scoreBounds (parseTD1 a b c).validCheckDigits (parseTD1 a b c).validLineLengths
      (parseTD1 a b c).validMisc 45 rfl (by norm_num) (by norm_num)
    exact ⟨e, fun h => e.trans (hb.1 h), fun h => e ▸ hb.2 h⟩
  · have e : (parseTD2 a b).validScore =
        100 * (10 * (parseTD2 a b).validCheckDigits.count true
          + (parseTD2 a b).validLineLengths.count true
          + (parseTD2 a b).validMisc.count true + 1) / 44 := rfl
    have hb := scoreBounds (parseTD2 a b).validCheckDigits (parseTD2 a b).validLineLengths
      (parseTD2 a b).validMisc 44 rfl (by norm_num) (by norm_num)
    exact ⟨e, fun h => e.trans (hb.1 h), fun h => e ▸ hb.2 h⟩
  · have e : (parseTD3 a b).validScore =
        100 * (10 * (parseTD3 a b).validCheckDigits.count true
          + (parseTD3 a b).validLineLengths.count true
          + (parseTD3 a b).validMisc.count true + 1) / 54 := rfl
    have hb := scoreBounds (parseTD3 a b).validCheckDigits (parseTD3 a b).validLineLengths
      (parseTD3 a b).validMisc 54 rfl (by norm_num) (by norm_num)
    exact ⟨e, fun h => e.trans (hb.1 h), fun h => e ▸ hb.2 h⟩
  · have e : (parseMRV a b len).validScore =
        100 * (10 * (parseMRV a b len).validCheckDigits.count true
          + (parseMRV a b len).validLineLengths.count true
          + (parseMRV a b len).validMisc.count true + 1) / 34 := rfl
    have hb := scoreBounds (parseMRV a b len).validCheckDigits (parseMRV a b len).validLineLengths
      (parseMRV a b len).validMisc 34 rfl (by norm_num) (by norm_num)
    exact ⟨e, fun h => e.trans (hb.1 h), fun h => e ▸ hb.2 h⟩

/-- Witness for C1: the all-checks-pass TD1 document from the source's
doctest scores exactly 100 under the amended theorem. -/
theorem c1_witness :
    (parseTD1 "IDAUT10000999<6<<<<<<<<<<<<<<<".toList "7109094F1112315AUT<<<<<<<<<<<4".toList
      "MUSTERFRAU<<ISOLDE<<<<<<<<<<<<".toList).validScore = 100 := by
  have h := c1_valid_score_amended.1 "IDAUT10000999<6<<<<<<<<<<<<<<<".toList
    "7109094F1112315AUT<<<<<<<<<<<4".toList "MUSTERFRAU<<ISOLDE<<<<<<<<<<<<".toList
  exact h.2.1 (by decide)

/-- Counterexample for C1 as stated: on the all-checks-pass TD1 document the
parser's `valid_score` is 100, but the claimed formula with the TD1
normalizer 44 gives `100 * 45 / 44 = 102`. -/
theorem c1_counterexample :
    (parseTD1 "IDAUT10000999<6<<<<<<<<<<<<<<<".toList "7109094F1112315AUT<<<<<<<<<<<4".toList
        "MUSTERFRAU<<ISOLDE<<<<<<<<<<<<".toList).validScore ≠
      100 * (10 * (parseTD1 "IDAUT10000999<6<<<<<<<<<<<<<<<".toList
          "7109094F1112315AUT<<<<<<<<<<<4".toList
          "MUSTERFRAU<<ISOLDE<<<<<<<<<<<<".toList).validCheckDigits.count true
        + (parseTD1 "IDAUT10000999<6<<<<<<<<<<<<<<<".toList
          "7109094F1112315AUT<<<<<<<<<<<4".toList
          "MUSTERFRAU<<ISOLDE<<<<<<<<<<<<".toList).validLineLengths.count true
        + (parseTD1 "IDAUT10000999<6<<<<<<<<<<<<<<<".toList
          "7109094F1112315AUT<<<<<<<<<<<4".toList
          "MUSTERFRAU<<ISOLDE<<<<<<<<<<<<".toList).validMisc.count true + 1) / 44 := by
  decide

/-! ### Parse dispatch (claim C6) -/

/-- C6 (confirmed): `MRZ.__init__` is total over arbitrary input lists — the
embedding of `_parse` is a total function, every exception path of the source
landing in a catch-all branch — and whenever the shape matches no variant
(`_guess_type` returns `None`, in particular for line counts other than 2
or 3) or the variant body fails on a non-string element, the result carries
`mrz_type = None`, `valid = False` and `valid_score = 0`. -/
theorem c6_parse_degrades_silently :
    ∀ lines : List PyVal,
      ((parse lines).mrzType = none →
        (parse lines).valid = false ∧ (parse lines).validScore = 0)
      ∧ (guessType lines = none → (parse lines).mrzType = none)
      ∧ (lines.length ≠ 2 → lines.length ≠ 3 →
        (parse lines).mrzType = none ∧ (parse lines).validScore = 0) := by
  intro lines
  have hbody : ∀ lines : List PyVal, (parse lines).mrzType = none →
      (parse lines).valid = false ∧ (parse lines).validScore = 0 := by
    intro l
    unfold parse
    split
    · exact fun _ => ⟨rfl, rfl⟩
    · split <;> simp
  have hguess : guessType lines = none → (parse lines).mrzType = none := by
    intro hg
    simp [parse, hg]
  refine ⟨hbody lines, hguess, ?_⟩
  intro h2 h3
  have hg : guessType lines = none := by
    unfold guessType
    rw [if_neg h3]
    rcases lines with _ | ⟨x, _ | ⟨y, _ | ⟨z, rest⟩⟩⟩
    · rfl
    · cases x <;> rfl
    · exact absurd rfl h2
    · cases x <;> rfl
  refine ⟨hguess hg, ?_⟩
  simp [parse, hg]

/-- Witness for C6: the doctest input `MRZ([1, 2, 3])` — three non-string
elements — guesses TD1, fails unpacking in the parse body, and degrades to
`mrz_type = None` with score 0. -/
theorem c6_witness :
    (parse [.nonstr, .nonstr, .nonstr]).valid = false
      ∧ (parse [.nonstr, .nonstr, .nonstr]).validScore = 0 :=
  (c6_parse_degrades_silently [.nonstr, .nonstr, .nonstr]).1 (by decide)

/-! ### TD3 personal-number check digit (claim C7) -/

/-- C7 (confirmed): in TD3 parsing the personal-number validity flag (the
fifth check-digit flag) is true exactly when the check character is `<` or
`0` while the fourteen-character personal-number field is all fillers, or the
computed check digit of the field equals the check character. -/
theorem c7_personal_number_flag :
    ∀ a b : List Char,
      ((parseTD3 a b).validCheckDigits.getD 4 false = true) ↔
        (((charAt (padTo 44 b) 42 = '<' ∨ charAt (padTo 44 b) 42 = '0')
            ∧ slice (padTo 44 b) 28 42 = List.replicate 14 '<')
          ∨ computeCheckDigit (slice (padTo 44 b) 28 42) = charStr (charAt (padTo 44 b) 42)) := by
  intro a b
  simp [parseTD3, List.getD_cons_succ, List.getD_cons_zero,
    Bool.or_eq_true, Bool.and_eq_true, beq_iff_eq]

/-! ### Two-line variant guessing (claim C9) -/

/-- C9 (corrected): for a two-line input whose first line is non-empty, if
either line has length 40 or more the guess is TD3 — MRVA when the first
character uppercases to `V` — even when the other line is shorter than 40.
(When the first line is empty the source's `mrz_lines[0][0]` raises and the
guess degrades to `None`: see `c9_counterexample`.) -/
theorem c9_two_line_guess_amended :
    ∀ a b : List Char, a ≠ [] → 40 ≤ a.length ∨ 40 ≤ b.length →
      guessType [.str a, .str b] =
        some (if (a.headD ' ').toUpper = 'V' then MRZType.MRVA else MRZType.TD3) := by
  intro a b ha h40
  rcases a with _ | ⟨c, rest⟩
  · exact absurd rfl ha
  · by_cases hlt : (c :: rest).length < 40
    · have hb : ¬ b.length < 40 := by
        rcases h40 with h | h
        · omega
        · omega
      simp [guessType, hlt, hb, headUpperBranch]
    · have hlt2 : ¬ rest.length + 1 < 40 := by simpa using hlt
      simp [guessType, hlt2, headUpperBranch]

/-- Witness for C9: a 40-character first line with an empty second line is
still guessed TD3. -/
theorem c9_witness :
    guessType [.str (List.replicate 40 'X'), .str []] = some MRZType.TD3 := by
  have h := c9_two_line_guess_amended (List.replicate 40 'X') [] (by decide) (Or.inl (by decide))
  exact h.trans (by decide)

/-- Counterexample for C9 as stated: with an empty first line and a
40-character second line the claim demands TD3, but `mrz_lines[0][0]` raises
and `_guess_type` returns `None`. -/
theorem c9_counterexample : ¬ c9ClaimMixedLength := by
  intro h
  exact absurd (h [] (List.replicate 40 'P') (Or.inr (by decide))) (by decide)

/-! ### OCR wrapper guard (claim C10) -/

/-- C10 (confirmed): given no image, or an image whose last axis has size
zero, the OCR wrapper returns the empty string without invoking the external
engine (the `false` component) and without raising. -/
theorem c10_ocr_degenerate_guard :
    ∀ (engine : NpImage → String) (img : Option NpImage),
      img = none ∨ (∃ im, img = some im ∧ im.shape.getLast? = some 0) →
      ocr engine img = some ("", false) := by
  intro engine img h
  rcases h with h | ⟨im, him, hlast⟩
  · subst h; rfl
  · subst him
    simp [ocr, hlast]

/-- Witness for C10: a `2 × 0` image shape short-circuits any engine. -/
theorem c10_witness : ocr (fun _ => "TEXT") (some ⟨[2, 0]⟩) = some ("", false) :=
  c10_ocr_degenerate_guard (fun _ => "TEXT") (some ⟨[2, 0]⟩) (Or.inr ⟨⟨[2, 0]⟩, rfl, by simp⟩)

/-! ### OCR cleaner remapping (claim C8) -/

/-- C8 (corrected): once a variant is identified, at alphabetic-only mask
positions the listed digit-lookalikes become letters, at numeric-only
positions the listed letter-lookalikes become digits, characters at
mixed-class (`*`) positions are *uppercased* (not left untouched, as
claimed: the source applies `char.upper()` before the empty fixer lookup),
and characters at positions beyond the variant's mask are left entirely
untouched. -/
theorem c8_cleaner_remap_amended :
    ∀ (tp : MRZType) (i j : Nat), i < (FORMAT tp).length →
      (j < maskLen tp i →
        ((classAt tp i j = 'a' ∨ classAt tp i j = 'A') →
          fixChar tp i j '0' = 'O' ∧ fixChar tp i j '1' = 'I' ∧ fixChar tp i j '2' = 'Z'
            ∧ fixChar tp i j '4' = 'A' ∧ fixChar tp i j '5' = 'S' ∧ fixChar tp i j '6' = 'G'
            ∧ fixChar tp i j '8' = 'B')
        ∧ ((classAt tp i j = 'n' ∨ classAt tp i j = 'N') →
          fixChar tp i j 'B' = '8' ∧ fixChar tp i j 'C' = '0' ∧ fixChar tp i j 'D' = '0'
            ∧ fixChar tp i j 'G' = '6' ∧ fixChar tp i j 'I' = '1' ∧ fixChar tp i j 'O' = '0'
            ∧ fixChar tp i j 'Q' = '0' ∧ fixChar tp i j 'S' = '5' ∧ fixChar tp i j 'Z' = '2')
        ∧ (classAt tp i j = '*' → ∀ c, fixChar tp i j c = c.toUpper))
      ∧ (maskLen tp i ≤ j → ∀ c, fixChar tp i j c = c) := by
  intro tp i j hi
  have hstep : j < maskLen tp i → ∀ ch : Char,
      fixChar tp i j ch = fixerFor (classAt tp i j) ch.toUpper := by
    intro hj ch
    unfold maskLen at hj
    unfold fixChar classAt
    rw [if_neg (by omega)]
  constructor
  · intro hj
    refine ⟨?_, ?_, ?_⟩
    · intro hcls
      rcases hcls with h | h <;> simp only [hstep hj, h] <;> decide
    · intro hcls
      rcases hcls with h | h <;> simp only [hstep hj, h] <;> decide
    · intro h c
      rw [hstep hj, h]
      simp [fixerFor]
  · intro hj c
    unfold maskLen at hj
    unfold fixChar
    rw [if_pos hj]

/-- Witness for C8: position (0,0) of the TD1 mask is alphabetic-only and the
digit lookalike `0` is remapped to the letter `O` there. -/
theorem c8_witness : fixChar .TD1 0 0 '0' = 'O' :=
  (((c8_cleaner_remap_amended .TD1 0 0 (by decide)).1 (by decide)).1 (Or.inl (by decide))).1

/-- Counterexample for C8 as stated: position (1,0) of the TD3 mask is a
mixed-class (`*`) position, where the claim says characters are left
untouched, yet the cleaner uppercases `'z'` to `'Z'`. -/
theorem c8_counterexample : ¬ c8ClaimRemap := by
  intro h
  have hz := ((h .TD3 1 0 (by decide)).1 (by decide)).2.2 (by decide) 'z'
  exact absurd hz (by decide)

/-! ### Recognition loop (claim C4) -/

theorem sorted_getLast?_max {α : Type} {R : α → α → Prop} :
    ∀ (l : List α), l.Pairwise R → ∀ (x y : α), x ∈ l → l.getLast? = some y →
      x = y ∨ R x y := by
  intro l
  induction l with
  | nil => intro _ x y hx; simp at hx
  | cons a t ih =>
    intro h x y hx hy
    rcases t with _ | ⟨b, t2⟩
    · rw [List.getLast?_singleton] at hy
      injection hy with hy
      subst hy
      left
      simpa using hx
    · rw [List.getLast?_cons_cons] at hy
      rcases List.mem_cons.1 hx with rfl | hx2
      · right
        exact (List.pairwise_cons.1 h).1 y (List.mem_of_mem_getLast? hy)
      · exact ih (List.pairwise_cons.1 h).2 x y hx2 hy

theorem findLoop_shortCircuit :
    ∀ (recs : List MRZRec) (i : Nat) (acc : List (Nat × MRZRec)) (k : Nat) (hk : k < recs.length),
      (∀ r ∈ recs, r.valid = decide (r.validScore = 100)) →
      (∀ (j : Nat) (hj : j < k), (recs.get ⟨j, by omega⟩).validScore ≠ 100) →
      (recs.get ⟨k, hk⟩).validScore = 100 →
      findLoop recs i acc = some (i + k, recs.get ⟨k, hk⟩) := by
  intro recs
  induction recs with
  | nil => intro i acc k hk; simp at hk
  | cons r rest ih =>
    intro i acc k hk hv hbefore h100
    cases k with
    | zero =>
      have hr : r.validScore = 100 := by simpa using h100
      have hval : r.valid = true := by
        rw [hv r (List.mem_cons_self r rest)]
        simp [hr]
      simp [findLoop, hval]
    | succ k2 =>
      have hr : r.validScore ≠ 100 := by
        have := hbefore 0 (Nat.succ_pos k2)
        simpa using this
      have hval : r.valid = false := by
        rw [hv r (List.mem_cons_self r rest)]
        simp [hr]
      have hk2 : k2 < rest.length := by simpa using hk
      have step := ih (i + 1) (if 0 < r.validScore then acc ++ [(i, r)] else acc) k2 hk2
        (fun x hx => hv x (List.mem_cons_of_mem r hx))
        (fun j hj => by
          have := hbefore (j + 1) (by omega)
          simpa using this)
        (by simpa using h100)
      calc findLoop (r :: rest) i acc
          = findLoop rest (i + 1) (if 0 < r.validScore then acc ++ [(i, r)] else acc) := by
            simp [findLoop, hval]
        _ = some (i + 1 + k2, rest.get ⟨k2, hk2⟩) := step
        _ = some (i + (k2 + 1), (r :: rest).get ⟨k2 + 1, hk⟩) := by
            have harith : i + 1 + k2 = i + (k2 + 1) := by omega
            simp [harith]

theorem findLoop_best :
    ∀ (recs : List MRZRec) (i : Nat) (acc : List (Nat × MRZRec)),
      (∀ r ∈ recs, r.valid = decide (r.validScore = 100)) →
      (∀ r ∈ recs, r.validScore ≠ 100) →
      (∀ q ∈ acc, 0 < q.2.validScore) →
      (acc ≠ [] ∨ ∃ r ∈ recs, 0 < r.validScore) →
      ∃ p, findLoop recs i acc = some p ∧ 0 < p.2.validScore
        ∧ (p ∈ acc ∨ p.2 ∈ recs)
        ∧ (∀ q ∈ acc, q.2.validScore ≤ p.2.validScore)
        ∧ (∀ r ∈ recs, r.validScore ≤ p.2.validScore) := by
  intro recs
  induction recs with
  | nil =>
    intro i acc hv hno hacc hne
    have hacc_ne : acc ≠ [] := by
      rcases hne with h | ⟨r, hr, _⟩
      · exact h
      · simp at hr
    have hperm : (acc.mergeSort (fun x y => decide (x.2.validScore ≤ y.2.validScore))).Perm acc :=
      List.mergeSort_perm acc _
    have hsne : acc.mergeSort (fun x y => decide (x.2.validScore ≤ y.2.validScore)) ≠ [] := by
      intro h
      apply hacc_ne
      have := hperm.length_eq
      rw [h] at this
      exact List.length_eq_zero.1 this.symm
    obtain ⟨p, hp⟩ := Option.isSome_iff_exists.1 (List.getLast?_isSome.2 hsne)
    have hsorted := @List.sorted_mergeSort (Nat × MRZRec)
      (fun x y => decide (x.2.validScore ≤ y.2.validScore))
      (fun a b c hab hbc => by simp only [decide_eq_true_eq] at *; omega)
      (fun a b => by simp only [Bool.or_eq_true, decide_eq_true_eq]; omega) acc
    have hpmem : p ∈ acc := hperm.mem_iff.1 (List.mem_of_mem_getLast? hp)
    refine ⟨p, ?_, hacc p hpmem, Or.inl hpmem, ?_, ?_⟩
    · simp [findLoop, hp]
    · intro q hq
      rcases sorted_getLast?_max _ hsorted q p (hperm.mem_iff.2 hq) hp with h | h
      · rw [h]
      · simpa using h
    · intro x hx
      simp at hx
  | cons r rest ih =>
    intro i acc hv hno hacc hne
    have hval : r.valid = false := by
      rw [hv r (List.mem_cons_self r rest)]
      simp [hno r (List.mem_cons_self r rest)]
    by_cases hposr : 0 < r.validScore
    · obtain ⟨p, hfind, hpos, hmem, haccle, hrestle⟩ := ih (i + 1) (acc ++ [(i, r)])
        (fun x hx => hv x (List.mem_cons_of_mem r hx))
        (fun x hx => hno x (List.mem_cons_of_mem r hx))
        (by
          intro q hq
          rcases List.mem_append.1 hq with h | h
          · exact hacc q h
          · simp at h
            rw [h]
            exact hposr)
        (Or.inl (by simp))
      refine ⟨p, ?_, hpos, ?_, ?_, ?_⟩
      · simpa [findLoop, hval, hposr] using hfind
      · rcases hmem with hpacc | hprest
        · rcases List.mem_append.1 hpacc with h | h
          · exact Or.inl h
          · simp at h
            right
            rw [h]
            exact List.mem_cons_self r rest
        · exact Or.inr (List.mem_cons_of_mem r hprest)
      · intro q hq
        exact haccle q (List.mem_append_left _ hq)
      · intro x hx
        rcases List.mem_cons.1 hx with rfl | hx2
        · simpa using haccle (i, x) (List.mem_append_right _ (List.mem_singleton_self _))
        · exact hrestle x hx2
    · obtain ⟨p, hfind, hpos, hmem, haccle, hrestle⟩ := ih (i + 1) acc
        (fun x hx => hv x (List.mem_cons_of_mem r hx))
        (fun x hx => hno x (List.mem_cons_of_mem r hx))
        hacc
        (by
          rcases hne with h | ⟨x, hx, hxpos⟩
          · exact Or.inl h
          · rcases List.mem_cons.1 hx with rfl | hx2
            · exact absurd hxpos hposr
            · exact Or.inr ⟨x, hx2, hxpos⟩)
      refine ⟨p, ?_, hpos, ?_, ?_, ?_⟩
      · simpa [findLoop, hval, hposr] using hfind
      · rcases hmem with h | h
        · exact Or.inl h
        · exact Or.inr (List.mem_cons_of_mem r h)
      · exact haccle
      · intro x hx
        rcases List.mem_cons.1 hx with rfl | hx2
        · omega
        · exact hrestle x hx2

theorem findLoop_allZero :
    ∀ (recs : List MRZRec) (i : Nat),
      (∀ r ∈ recs, r.valid = decide (r.validScore = 100)) →
      (∀ r ∈ recs, r.validScore = 0) →
      findLoop recs i [] = none := by
  intro recs
  induction recs with
  | nil => intro i _ _; simp [findLoop]
  | cons r rest ih =>
    intro i hv hz
    have hval : r.valid = false := by
      rw [hv r (List.mem_cons_self r rest)]
      simp [hz r (List.mem_cons_self r rest)]
    have hs : ¬ 0 < r.validScore := by simp [hz r (List.mem_cons_self r rest)]
    simp only [findLoop, hval, Bool.false_eq_true, if_false, hs, if_neg hs]
    exact ih (i + 1) (fun x hx => hv x (List.mem_cons_of_mem r hx))
      (fun x hx => hz x (List.mem_cons_of_mem r hx))

/-- C4 (confirmed): over records whose `valid` flag agrees with
`score == 100` (as every parser-produced record does — `MRZ._parse_*` return
`valid_score == 100` into `valid`): the first candidate box whose record
scores 100 terminates the loop immediately and is returned with its box
index; when none reaches 100 but some record scores above 0, a record of
maximal score over all boxes is returned; when every record scores 0, the
result is the no-MRZ-found value. -/
theorem c4_find_first_valid :
    ∀ recs : List MRZRec, (∀ r ∈ recs, r.valid = decide (r.validScore = 100)) →
      (∀ (k : Nat) (hk : k < recs.length),
        (∀ (j : Nat) (hj : j < k), (recs.get ⟨j, by omega⟩).validScore ≠ 100) →
        (recs.get ⟨k, hk⟩).validScore = 100 →
        findFirstValidMRZ recs = some (k, recs.get ⟨k, hk⟩))
      ∧ ((∀ r ∈ recs, r.validScore ≠ 100) → (∃ r ∈ recs, 0 < r.validScore) →
        ∃ p, findFirstValidMRZ recs = some p ∧ p.2 ∈ recs ∧ 0 < p.2.validScore
          ∧ ∀ r ∈ recs, r.validScore ≤ p.2.validScore)
      ∧ ((∀ r ∈ recs, r.validScore = 0) → findFirstValidMRZ recs = none) := by
  intro recs hv
  refine ⟨?_, ?_, ?_⟩
  · intro k hk hbefore h100
    have h := findLoop_shortCircuit recs 0 [] k hk hv hbefore h100
    simpa [findFirstValidMRZ] using h
  · intro hno hex
    obtain ⟨p, hfind, hpos, hmem, _, hle⟩ := findLoop_best recs 0 [] hv hno (by simp)
      (Or.inr hex)
    refine ⟨p, hfind, ?_, hpos, hle⟩
    rcases hmem with h | h
    · simp at h
    · exact h
  · intro hzero
    exact findLoop_allZero recs 0 hv hzero

/-- Witness for C4: in `[score 7 (invalid), score 100 (valid)]` the second
box short-circuits the loop and is returned with index 1. -/
theorem c4_witness :
    findFirstValidMRZ [⟨false, 7⟩, ⟨true, 100⟩] = some (1, ⟨true, 100⟩) := by
  have h := (c4_find_first_valid [⟨false, 7⟩, ⟨true, 100⟩] (by decide)).1 1 (by decide)
    (by
      intro j hj
      have hj0 : j = 0 := by omega
      subst hj0
      simp)
    (by decide)
  simpa using h

/-! ### Pipeline invalidation (claim C3) -/

theorem mem_downstreamKeys {g : Graph} {k k2 : String} (h : k2 ∈ downstreamKeys g k) :
    ∃ c ∈ g, k ∈ c.depends ∧ k2 ∈ c.provides := by
  unfold downstreamKeys at h
  rcases List.mem_flatMap.1 h with ⟨c, hc, hk2⟩
  rcases List.mem_filter.1 hc with ⟨hcg, hdep⟩
  refine ⟨c, hcg, ?_, hk2⟩
  simpa using hdep

theorem invFuel_subset (g : Graph) :
    ∀ (n : Nat) (k : String) (d : Finset String), invFuel g n k d ⊆ d := by
  intro n
  induction n with
  | zero => intro k d; simp [invFuel]
  | succ n ih =>
    intro k d
    by_cases hk : k ∈ d
    · have hfold : ∀ (ks : List String) (d0 : Finset String),
          ks.foldl (fun d2 k2 => invFuel g n k2 d2) d0 ⊆ d0 := by
        intro ks
        induction ks with
        | nil => intro d0; simp
        | cons a ks ihks =>
          intro d0
          rw [List.foldl_cons]
          exact (ihks _).trans (ih a d0)
      have e : invFuel g (n + 1) k d
          = (downstreamKeys g k).foldl (fun d2 k2 => invFuel g n k2 d2) (d.erase k) := by
        simp [invFuel, hk]
      rw [e]
      exact (hfold _ _).trans (Finset.erase_subset k d)
    · have e : invFuel g (n + 1) k d = d := by simp [invFuel, hk]
      rw [e]

theorem invFuel_removed_reach (g : Graph) :
    ∀ (n : Nat) (k : String) (d : Finset String) (x : String),
      x ∈ d → x ∉ invFuel g n k d → Reach g k x := by
  intro n
  induction n with
  | zero =>
    intro k d x hx hnx
    exact absurd hx hnx
  | succ n ih =>
    intro k d x hx hnx
    by_cases hk : k ∈ d
    · have e : invFuel g (n + 1) k d
          = (downstreamKeys g k).foldl (fun d2 k2 => invFuel g n k2 d2) (d.erase k) := by
        simp [invFuel, hk]
      rw [e] at hnx
      by_cases hxk : x = k
      · subst hxk
        exact Reach.refl x
      · have hx2 : x ∈ d.erase k := Finset.mem_erase.2 ⟨hxk, hx⟩
        have hfold : ∀ (ks : List String) (d0 : Finset String) (y : String),
            y ∈ d0 → y ∉ ks.foldl (fun d2 k2 => invFuel g n k2 d2) d0 →
            ∃ k2 ∈ ks, Reach g k2 y := by
          intro ks
          induction ks with
          | nil =>
            intro d0 y h1 h2
            exact absurd h1 h2
          | cons a ks ihks =>
            intro d0 y h1 h2
            rw [List.foldl_cons] at h2
            by_cases hmem : y ∈ invFuel g n a d0
            · obtain ⟨k2, hk2, hr⟩ := ihks _ y hmem h2
              exact ⟨k2, List.mem_cons_of_mem a hk2, hr⟩
            · exact ⟨a, List.mem_cons_self a ks, ih a d0 y h1 hmem⟩
        obtain ⟨k2, hk2, hr⟩ := hfold _ _ x hx2 hnx
        obtain ⟨c, hc, hkdep, hk2prov⟩ := mem_downstreamKeys hk2
        exact Reach.step c hc hkdep hk2prov hr
    · have e : invFuel g (n + 1) k d = d := by simp [invFuel, hk]
      rw [e] at hnx
      exact absurd hx hnx

theorem invMany_subset (g : Graph) (n : Nat) :
    ∀ (ks : List String) (d0 : Finset String),
      ks.foldl (fun d2 k2 => invFuel g n k2 d2) d0 ⊆ d0 := by
  intro ks
  induction ks with
  | nil => intro d0; simp
  | cons a ks ihks =>
    intro d0
    rw [List.foldl_cons]
    exact (ihks _).trans (invFuel_subset g n a d0)

theorem invalidate_subset (g : Graph) (k : String) (d : Finset String) :
    invalidate g k d ⊆ d :=
  invFuel_subset g (d.card + 1) k d

theorem invalidate_removed_reach (g : Graph) (k : String) (d : Finset String) (x : String) :
    x ∈ d → x ∉ invalidate g k d → Reach g k x :=
  invFuel_removed_reach g (d.card + 1) k d x

theorem invalidate_not_mem (g : Graph) (k : String) (d : Finset String) :
    k ∉ invalidate g k d := by
  unfold invalidate
  by_cases hk : k ∈ d
  · have e : invFuel g (d.card + 1) k d
        = (downstreamKeys g k).foldl (fun d2 k2 => invFuel g d.card k2 d2) (d.erase k) := by
      simp [invFuel, hk]
    rw [e]
    intro hmem
    exact Finset.not_mem_erase k d (invMany_subset g d.card _ _ hmem)
  · have e : invFuel g (d.card + 1) k d = d := by simp [invFuel, hk]
    rw [e]
    exact hk

theorem foldInv_subset (g2 : Graph) :
    ∀ (ps : List String) (d : Finset String),
      ps.foldl (fun d2 p => invalidate g2 p d2) d ⊆ d := by
  intro ps
  induction ps with
  | nil => intro d; simp
  | cons a ps ihps =>
    intro d
    rw [List.foldl_cons]
    exact (ihps _).trans (invalidate_subset g2 a d)

theorem foldInv_removed_reach (g2 : Graph) :
    ∀ (ps : List String) (d : Finset String) (x : String),
      x ∈ d → x ∉ ps.foldl (fun d2 p => invalidate g2 p d2) d →
      ∃ p ∈ ps, Reach g2 p x := by
  intro ps
  induction ps with
  | nil =>
    intro d x h1 h2
    exact absurd h1 h2
  | cons a ps ihps =>
    intro d x h1 h2
    rw [List.foldl_cons] at h2
    by_cases hmem : x ∈ invalidate g2 a d
    · obtain ⟨p, hp, hr⟩ := ihps _ x hmem h2
      exact ⟨p, List.mem_cons_of_mem a hp, hr⟩
    · exact ⟨a, List.mem_cons_self a ps, invalidate_removed_reach g2 a d x h1 hmem⟩

theorem foldInv_outs_removed (g2 : Graph) :
    ∀ (ps : List String) (d : Finset String) (p : String), p ∈ ps →
      p ∉ ps.foldl (fun d2 q => invalidate g2 q d2) d := by
  intro ps
  induction ps with
  | nil => intro d p hp; simp at hp
  | cons a ps ihps =>
    intro d p hp
    rw [List.foldl_cons]
    rcases List.mem_cons.1 hp with rfl | hp2
    · intro hmem
      exact invalidate_not_mem g2 p d (foldInv_subset g2 ps _ hmem)
    · exact ihps _ p hp2

/-- C3 (corrected): `replace_component` removes *only* memoized keys inside
the transitive closure of the replaced component's output keys, always
removes the outputs themselves, and retains every memoized key outside the
closure (values are never rewritten by the removal path, so a retained key
keeps its previous value) — but it does not remove the whole memoized part of
the closure: `invalidate` returns early at a key that is not currently
memoized, so a memoized key further downstream survives when the intermediate
key was absent (see `c3_counterexample`). -/
theorem c3_replace_invalidation_amended :
    ∀ (g : Graph) (name : String) (d : Finset String),
      (g.map Comp.name).contains name = true →
      removeData g name d ⊆ d
      ∧ (∀ x ∈ d, x ∉ removeData g name d → ReachFromOutputs g name x)
      ∧ (∀ p ∈ providesOf g name, p ∉ removeData g name d)
      ∧ (∀ x ∈ d, ¬ ReachFromOutputs g name x → x ∈ removeData g name d) := by
  intro g name d _
  refine ⟨foldInv_subset _ _ _, ?_, ?_, ?_⟩
  · intro x hx hnx
    obtain ⟨p, hp, hr⟩ :=
      foldInv_removed_reach (removeGraph g name) (providesOf g name) d x hx hnx
    exact ⟨p, hp, hr⟩
  · intro p hp
    exact foldInv_outs_removed _ _ _ p hp
  · intro x hx hnr
    by_contra hnot
    obtain ⟨p, hp, hr⟩ :=
      foldInv_removed_reach (removeGraph g name) (providesOf g name) d x hx hnot
    exact hnr ⟨p, hp, hr⟩

/-- Witness for C3: replacing component `A` (provides `a`, consumed by `B`
which provides `b`) on a store holding both keys removes the memoized
output `a`. -/
theorem c3_witness :
    ("a" : String) ∉ removeData [⟨"A", ["a"], []⟩, ⟨"B", ["b"], ["a"]⟩] "A" {"a", "b"} :=
  (c3_replace_invalidation_amended [⟨"A", ["a"], []⟩, ⟨"B", ["b"], ["a"]⟩] "A" {"a", "b"}
    (by decide)).2.2.1 "a" (by decide)

/-- Counterexample for C3 as stated: with components `A` (provides `a`) and
`B` (depends `a`, provides `b`) and only `b` memoized (seeded via
`__setitem__`), `b` lies in the transitive closure of `A`'s outputs, yet
replacing `A` removes nothing — `invalidate('a')` returns early because `a`
is not memoized, so the memoized `b` survives. -/
theorem c3_counterexample : ¬ c3ClaimExactClosure := by
  intro h
  have hiff := h [⟨"A", ["a"], []⟩, ⟨"B", ["b"], ["a"]⟩] "A" {"b"} (by decide) "b" (by decide)
  have hreach : ReachFromOutputs [⟨"A", ["a"], []⟩, ⟨"B", ["b"], ["a"]⟩] "A" "b" := by
    refine ⟨"a", by decide, ?_⟩
    exact Reach.step ⟨"B", ["b"], ["a"]⟩ (by decide) (by decide) (by decide) (Reach.refl "b")
  exact absurd
    (by decide : ("b" : String) ∈ removeData [⟨"A", ["a"], []⟩, ⟨"B", ["b"], ["a"]⟩] "A" {"b"})
    (hiff.2 hreach)

/-! ### Box locator (claim C5) -/

theorem locatorCollect_eq (fit : Contour → String → RBox) (cfg : LocatorCfg) :
    ∀ cs : List Contour,
      locatorCollect fit cfg cs =
        ((cs.filter (fun c => !smallContour cfg c)).map (fun c => fit c cfg.boxType)).filter
          (fun rb => !badAspect cfg rb) := by
  intro cs
  induction cs with
  | nil => rfl
  | cons c rest ih =>
    by_cases hs : smallContour cfg c
    · simp [locatorCollect, hs, ih]
    · by_cases hb : badAspect cfg (fit c cfg.boxType)
      · simp [locatorCollect, hs, hb, ih]
      · simp [locatorCollect, hs, hb, ih]

theorem sortByAreaDesc_sorted (l : List RBox) :
    (sortByAreaDesc l).Sorted (fun b1 b2 => b2.area ≤ b1.area) := by
  have h := @List.sorted_mergeSort RBox
    (fun b1 b2 => decide (-b1.area ≤ -b2.area))
    (fun a b c hab hbc => by
      simp only [decide_eq_true_eq] at *
      linarith)
    (fun a b => by
      simp only [Bool.or_eq_true, decide_eq_true_eq]
      exact le_total _ _) l
  exact h.imp (fun hab => by
    simp only [decide_eq_true_eq, neg_le_neg_iff] at hab
    exact hab)

theorem sortByAreaDesc_perm (l : List RBox) : (sortByAreaDesc l).Perm l :=
  List.mergeSort_perm l _

/-- C5 (corrected): with its default configuration the box locator fits every
contour that survives the minimum-area filter using the *bounding* mode — the
source's `box_type` parameter defaults to `'bb'`, not the trimmed (`'mrz'`)
mode the claim names — then discards boxes whose width/height ratio is below
the minimum aspect (or whose height is zero), sorts the survivors by area
descending (a stable sort: the result is a permutation of the survivors,
pairwise ordered by area), and keeps at most `max_boxes = 4` of them before
merging.  The trimmed percentile refit exists in `RotatedBox.from_points`
under `box_type='mrz'` but is never selected by the locator. -/
theorem c5_locator_premerge_amended :
    ∀ (fit : Contour → String → RBox) (cs : List Contour),
      locatorPremerge fit defaultLocator cs =
        (sortByAreaDesc (((cs.filter (fun c => !smallContour defaultLocator c)).map
          (fun c => fit c "bb")).filter (fun rb => !badAspect defaultLocator rb))).take 4
      ∧ (sortByAreaDesc (locatorCollect fit defaultLocator cs)).Sorted
          (fun b1 b2 => b2.area ≤ b1.area)
      ∧ (sortByAreaDesc (locatorCollect fit defaultLocator cs)).Perm
          (locatorCollect fit defaultLocator cs) := by
  intro fit cs
  refine ⟨?_, sortByAreaDesc_sorted _, sortByAreaDesc_perm _⟩
  unfold locatorPremerge
  rw [locatorCollect_eq]
  rfl

/-- Counterexample for C5 as stated: a fitting function that distinguishes
the two modes shows the locator passes `'bb'`, not the trimmed `'mrz'`, to
`RotatedBox.from_points` under the default configuration. -/
theorem c5_counterexample : ¬ c5ClaimTrimmedFit := by
  intro h
  have he := h (fun _ m => if m = "bb" then ⟨20, 2⟩ else ⟨40, 2⟩) [[(1, 2), (31, 32)]]
  have hsmall : smallContour defaultLocator [(1, 2), (31, 32)] = false := by
    simp only [smallContour, contourWH, defaultLocator, List.foldl_cons, List.foldl_nil,
      decide_eq_false_iff_not, not_lt]
    norm_num
  have hbb : badAspect defaultLocator ⟨20, 2⟩ = false := by
    simp only [badAspect, defaultLocator, Bool.or_eq_false_iff, decide_eq_false_iff_not, not_lt]
    norm_num
  have hmrz : badAspect defaultLocator ⟨40, 2⟩ = false := by
    simp only [badAspect, defaultLocator, Bool.or_eq_false_iff, decide_eq_false_iff_not, not_lt]
    norm_num
  have hsing : ∀ x : RBox, sortByAreaDesc [x] = [x] := fun x =>
    List.perm_singleton.1 (sortByAreaDesc_perm [x])
  have hposS : (fun c => !smallContour defaultLocator c) [(1, 2), (31, 32)] = true := by
    show (!smallContour defaultLocator [(1, 2), (31, 32)]) = true
    rw [hsmall]
    rfl
  have hfil1 : List.filter (fun c => !smallContour defaultLocator c) [[(1, 2), (31, 32)]]
      = [[(1, 2), (31, 32)]] := by
    rw [List.filter_cons, if_pos hposS, List.filter_nil]
  have hposB : (fun rb => !badAspect defaultLocator rb) (⟨20, 2⟩ : RBox) = true := by
    show (!badAspect defaultLocator ⟨20, 2⟩) = true
    rw [hbb]
    rfl
  have hfil2 : List.filter (fun rb => !badAspect defaultLocator rb) [(⟨20, 2⟩ : RBox)]
      = [⟨20, 2⟩] := by
    rw [List.filter_cons, if_pos hposB, List.filter_nil]
  have hposM : (fun rb => !badAspect defaultLocator rb) (⟨40, 2⟩ : RBox) = true := by
    show (!badAspect defaultLocator ⟨40, 2⟩) = true
    rw [hmrz]
    rfl
  have hfil3 : List.filter (fun rb => !badAspect defaultLocator rb) [(⟨40, 2⟩ : RBox)]
      = [⟨40, 2⟩] := by
    rw [List.filter_cons, if_pos hposM, List.filter_nil]
  have hL : locatorPremerge (fun _ m => if m = "bb" then ⟨20, 2⟩ else ⟨40, 2⟩)
      defaultLocator [[(1, 2), (31, 32)]] = [⟨20, 2⟩] := by
    have hstep : locatorPremerge (fun _ m => if m = "bb" then ⟨20, 2⟩ else ⟨40, 2⟩)
        defaultLocator [[(1, 2), (31, 32)]] =
        (sortByAreaDesc (List.filter (fun rb => !badAspect defaultLocator rb)
          (List.map (fun c => (fun (_ : Contour) (m : String) =>
              if m = "bb" then (⟨20, 2⟩ : RBox) else ⟨40, 2⟩) c "bb")
            (List.filter (fun c => !smallContour defaultLocator c)
              [[(1, 2), (31, 32)]])))).take 4 := by
      unfold locatorPremerge
      rw [locatorCollect_eq]
      rfl
    have hmap : List.map (fun c => (fun (_ : Contour) (m : String) =>
        if m = "bb" then (⟨20, 2⟩ : RBox) else ⟨40, 2⟩) c "bb") [[(1, 2), (31, 32)]]
        = [⟨20, 2⟩] := by
      rw [List.map_cons, List.map_nil]
      rfl
    rw [hstep, hfil1, hmap, hfil2, hsing]
    rfl
  have hR : locatorPremergeClaimed (fun _ m => if m = "bb" then ⟨20, 2⟩ else ⟨40, 2⟩)
      defaultLocator [[(1, 2), (31, 32)]] = [⟨40, 2⟩] := by
    have hmap2 : List.map (fun c => (fun (_ : Contour) (m : String) =>
        if m = "bb" then (⟨20, 2⟩ : RBox) else ⟨40, 2⟩) c "mrz") [[(1, 2), (31, 32)]]
        = [⟨40, 2⟩] := by
      rw [List.map_cons, List.map_nil]
      rfl
    unfold locatorPremergeClaimed
    rw [hfil1, hmap2, hfil3, hsing]
    rfl
  rw [hL, hR] at he
  have h1 : ({ width := 20, height := 2 } : RBox) = { width := 40, height := 2 } := by
    injection he
  have h2 : (20 : ℚ) = 40 := congrArg RBox.width h1
  norm_num at h2

end PassportEye
